import Mathlib

/-!
Verification of the I-frame playlist generator
(`iframeplaylistgenerator/generator.py`).

Shallow embedding conventions:
* Python `float` values (timestamps, durations) are modelled as exact
  rationals `ℚ`; Python `int` (byte positions, sizes) as `ℤ`.
* Python strings that are only carried around (URIs of transport-stream
  segments, picture types) are Lean `String`s; strings that the code
  manipulates character by character (codec strings, rendition URIs) are
  `List Char`.
* The mutable dict `prev_iframe` is the structure `PrevIFrame`; the Python
  truthiness tests `if prev_iframe['position']:` / `if
  prev_iframe['displayed_at']:` (false for `None` and for `0`/`0.0`) are the
  functions `truthyZ` / `truthyQ`.
* The in-place mutation `iframe_segments[-1].x = v` becomes `setLast`
  applied to the segment list.  The `EXT-X-BYTERANGE` string
  `'{length}@{offset}'` is modelled as the pair `(length, offset)`.
* The `ValueError` raised for an unknown row type (the spec's
  `MalformedRecordError`) is the `Except` error `GenError.malformedRecord`
  carrying the offending discriminator.
-/

/-- The carried fold state `prev_iframe` of `create_iframe_segments`
(`generator.py` lines 130-132): details of the last processed I-frame
packet.  A field is `none` when the code stores `None`. -/
structure PrevIFrame where
  displayed_at : Option ℚ
  position : Option ℤ
  size : Option ℤ
deriving DecidableEq, Repr

/-- An `m3u8.Segment` as used by the generator: the source URI and base URI
it is created with (line 201), plus the two fields the generator mutates,
`duration` (seconds) and `byterange` (modelled as `(length, offset)` for the
string `'{length}@{offset}'`).  Both start out unset (`None`). -/
structure Segment where
  uri : String
  base_uri : String
  duration : Option ℚ
  byterange : Option (ℤ × ℤ)
deriving DecidableEq, Repr

/-- Python truthiness of `prev_iframe['displayed_at']` (a float or `None`):
`None` and `0.0` are falsy. -/
def truthyQ : Option ℚ → Bool
  | none => false
  | some x => decide (x ≠ 0)

/-- Python truthiness of `prev_iframe['position']` (an int or `None`):
`None` and `0` are falsy. -/
def truthyZ : Option ℤ → Bool
  | none => false
  | some x => decide (x ≠ 0)

/-- Mutation `iframe_segments[-1] := f iframe_segments[-1]`: the in-place mutation of
the last list element.  (The code never performs it on an empty list: a
truthy `prev_iframe` field implies at least one appended segment.) -/
def setLast (f : Segment → Segment) : List Segment → List Segment
  | [] => []
  | s :: rest =>
    match rest with
    | [] => [f s]
    | _ :: _ => s :: setLast f rest

/-- One CSV row of ffprobe output as consumed by `create_iframe_segments`:
`frame,<best_effort_timestamp_time>,<pkt_pos>,<pkt_size>,<pict_type>` or
`format,<start_time>,<duration>`.  `other d` models a row whose
discriminator `row[0] = d` is neither `"frame"` nor `"format"`. -/
inductive Row where
  | frame (best_effort_timestamp_time : ℚ) (pkt_pos : ℤ) (pkt_size : ℤ)
      (pict_type : String)
  | format (start_time : ℚ) (duration : ℚ)
  | other (decider : String)
deriving DecidableEq, Repr

/-- The discriminator `row[0]` of a row. -/
def Row.decider : Row → String
  | .frame _ _ _ _ => "frame"
  | .format _ _ => "format"
  | .other d => d

/-- Errors of the generator core.  `malformedRecord d` models the
`ValueError('Received an invalid row type: got "<d>", expected "format" or
"frame".')` raised at `generator.py` lines 144-145 (the spec's
`MalformedRecordError`); it identifies the offending discriminator `d`. -/
inductive GenError where
  | malformedRecord (decider : String)
deriving DecidableEq, Repr

/-- Model of `_process_video_frame` (`generator.py` lines 150-207).  Returns the new
`prev_iframe`, the updated `iframe_segments` list, and the new
`iframes_total_size`. -/
def _process_video_frame (frame_displayed_at : ℚ) (frame_position : ℤ)
    (frame_size : ℤ) (frame_type : String) (prev_iframe : PrevIFrame)
    (segment_uri segment_base_uri : String)
    (iframe_segments : List Segment) (iframes_total_size : ℤ) :
    PrevIFrame × List Segment × ℤ :=
  -- lines 183-192: `if prev_iframe['position']:`
  let step1 : PrevIFrame × List Segment × ℤ :=
    if truthyZ prev_iframe.position then
      let prev_pos := prev_iframe.position.getD 0
      let prev_iframe_size := frame_position - prev_pos
      ({ prev_iframe with position := none },
       setLast (fun s => { s with byterange := some (prev_iframe_size, prev_pos) })
         iframe_segments,
       iframes_total_size + prev_iframe_size)
    else (prev_iframe, iframe_segments, iframes_total_size)
  -- lines 194-205: `if frame_type == 'I':`
  if frame_type = "I" then
    let segs2 :=
      if truthyQ step1.1.displayed_at then
        setLast
          (fun s =>
            { s with
              duration := some (frame_displayed_at - step1.1.displayed_at.getD 0) })
          step1.2.1
      else step1.2.1
    (⟨some frame_displayed_at, some frame_position, some frame_size⟩,
     segs2 ++ [⟨segment_uri, segment_base_uri, none, none⟩],
     step1.2.2)
  else step1

/-- Model of `_process_video_details` (`generator.py` lines 210-247).  Returns the
updated `iframe_segments` (mutated in place by the Python code), the new
`iframes_total_size` and the `video_duration`. -/
def _process_video_details (video_started_at video_duration : ℚ)
    (prev_iframe : PrevIFrame) (iframe_segments : List Segment)
    (iframes_total_size : ℤ) : List Segment × ℤ × ℚ :=
  -- lines 234-239: `if prev_iframe['displayed_at']:`
  let segs1 :=
    if truthyQ prev_iframe.displayed_at then
      setLast
        (fun s =>
          { s with
            duration := some (video_started_at + video_duration -
              prev_iframe.displayed_at.getD 0) })
        iframe_segments
    else iframe_segments
  -- lines 240-246: `if prev_iframe['position']:`
  if truthyZ prev_iframe.position then
    (setLast
       (fun s =>
         { s with
           byterange := some (prev_iframe.size.getD 0, prev_iframe.position.getD 0) })
       segs1,
     iframes_total_size + prev_iframe.size.getD 0,
     video_duration)
  else (segs1, iframes_total_size, video_duration)

/-- The `for row in iframes_and_format:` loop of `create_iframe_segments`
(`generator.py` lines 133-145), folding the row list through the two step
functions.  State: `prev_iframe`, `iframe_segments`, `iframes_total_size`,
`video_duration`. -/
def create_iframe_segments_loop (segment_uri segment_base_uri : String) :
    List Row → PrevIFrame → List Segment → ℤ → ℚ →
    Except GenError (List Segment × ℤ × ℚ)
  | [], _, segs, total, dur => .ok (segs, total, dur)
  | row :: rest, prev, segs, total, dur =>
    match row with
    | .frame t pos sz pt =>
      let r := _process_video_frame t pos sz pt prev segment_uri
        segment_base_uri segs total
      create_iframe_segments_loop segment_uri segment_base_uri rest
        r.1 r.2.1 r.2.2 dur
    | .format st d =>
      let r := _process_video_details st d prev segs total
      create_iframe_segments_loop segment_uri segment_base_uri rest
        prev r.1 r.2.1 r.2.2
    | .other dec => .error (.malformedRecord dec)

/-- Model of `create_iframe_segments` (`generator.py` lines 115-147): takes a
transport-stream segment (its URI and base URI) and the parsed probe rows,
and returns the I-frame segments, `iframes_total_size` and
`video_duration`. -/
def create_iframe_segments (segment_uri segment_base_uri : String)
    (rows : List Row) : Except GenError (List Segment × ℤ × ℚ) :=
  create_iframe_segments_loop segment_uri segment_base_uri rows
    ⟨none, none, none⟩ [] 0 0

deriving instance DecidableEq for Except

/-! ## Codec filtering (`convert_codecs_for_iframes`, lines 302-310)

Python strings are modelled as `List Char` here, since the code works
character by character: `codecs.split(',')`, `k.strip()`, `'avc1' in k`,
`', '.join(...)`. -/

/-- The whitespace characters removed by Python's `str.strip()`. -/
def isPySpace (c : Char) : Bool :=
  c = ' ' || c = '\t' || c = '\n' || c = '\r' || c = '\x0b' || c = '\x0c'

/-- Python `s.strip()`: drop whitespace from both ends. -/
def pyStrip (s : List Char) : List Char :=
  ((s.dropWhile isPySpace).reverse.dropWhile isPySpace).reverse

/-- Does `needle` occur at the start of `hay`?  (Helper for Python's
substring test.) -/
def startsWithChars : List Char → List Char → Bool
  | [], _ => true
  | _ :: _, [] => false
  | a :: as, b :: bs => a = b && startsWithChars as bs

/-- Python `needle in hay` on strings: `needle` occurs contiguously
somewhere in `hay`. -/
def occursIn (needle : List Char) : List Char → Bool
  | [] => startsWithChars needle []
  | c :: t => startsWithChars needle (c :: t) || occursIn needle t

/-- The literal `'avc1'`. -/
def avc1 : List Char := ['a', 'v', 'c', '1']

/-- Python `s.split(',')`: always returns at least one piece; the separator
is not part of any piece. -/
def pySplitComma : List Char → List (List Char)
  | [] => [[]]
  | c :: rest =>
    let r := pySplitComma rest
    if c = ',' then [] :: r else (c :: r.headD []) :: r.tail

/-- Python `', '.join(parts)`. -/
def joinCommaSpace : List (List Char) → List Char
  | [] => []
  | [p] => p
  | p :: q :: rest => p ++ ',' :: ' ' :: joinCommaSpace (q :: rest)

/-- Model of `convert_codecs_for_iframes` (`generator.py` lines 302-310):
`', '.join([k.strip() for k in codecs.split(',') if 'avc1' in k])`,
mapping `None` to `None`. -/
def convert_codecs_for_iframes : Option (List Char) → Option (List Char)
  | some codecs =>
    let codecs_list := pySplitComma codecs
    some (joinCommaSpace
      ((codecs_list.filter (fun k => occursIn avc1 k)).map pyStrip))
  | none => none

/-- The codec filter as the spec words it ("splits the rendition's declared
codec string on commas, trims whitespace from each entry, and retains only
entries that ... contain the substring `avc1`; joins retained entries with
`', '`"): trim first, then retain.  Compared against
`convert_codecs_for_iframes` below. -/
def spec_codec_filter (s : List Char) : List Char :=
  joinCommaSpace
    (((pySplitComma s).map pyStrip).filter (fun k => occursIn avc1 k))

/-! ## The I-frame playlist URI transformation (line 91)

`playlist.uri.replace('.m3u8', '-iframes.m3u8')`: Python `str.replace`
substitutes every non-overlapping occurrence, scanning left to right. -/

/-- Does the string start with `'.m3u8'`? -/
def startsWithM3u8 (s : List Char) : Bool :=
  startsWithChars ['.', 'm', '3', 'u', '8'] s

/-- Python `s.replace('.m3u8', '-iframes.m3u8')` on `List Char`: every occurrence
of `.m3u8`, scanned left to right, becomes `-iframes.m3u8`. -/
def replace_dot_m3u8 : List Char → List Char
  | '.' :: 'm' :: '3' :: 'u' :: '8' :: rest =>
    '-' :: 'i' :: 'f' :: 'r' :: 'a' :: 'm' :: 'e' :: 's' ::
      '.' :: 'm' :: '3' :: 'u' :: '8' :: replace_dot_m3u8 rest
  | c :: rest => c :: replace_dot_m3u8 rest
  | [] => []

/-! ## Rendition playlist builder and master orchestrator
(`create_iframe_playlist`, lines 52-98, and `update_for_iframes`,
lines 22-49)

Loading playlists over the network, probing with ffprobe and serializing
m3u8 text are external collaborators; a rendition is therefore modelled by
its declared codec string, its URI, and the per-transport-stream-segment
results of `create_iframe_segments`. -/

/-- The result triple of `create_iframe_segments` for one transport-stream
segment, as consumed by the loop at `generator.py` lines 73-81. -/
structure SegResult where
  segments : List Segment
  s_bytes : ℤ
  s_duration : ℚ
deriving DecidableEq, Repr

/-- One rendition (`playlist` in `create_iframe_playlist`): its URI, its
declared codec string, and the synthesis results of its transport-stream
segments. -/
structure Rendition where
  uri : List Char
  codecs : Option (List Char)
  seg_results : List SegResult
deriving DecidableEq, Repr

/-- Sum `total_bytes` accumulated over the rendition's segments
(lines 63, 80). -/
def rendition_total_bytes (playlist : Rendition) : ℤ :=
  playlist.seg_results.foldl (fun acc r => acc + r.s_bytes) 0

/-- Sum `total_duration` accumulated over the rendition's segments
(lines 64, 81). -/
def rendition_total_duration (playlist : Rendition) : ℚ :=
  playlist.seg_results.foldl (fun acc r => acc + r.s_duration) 0

/-- All I-frame segments of the rendition in order (lines 77-78). -/
def rendition_all_segments (playlist : Rendition) : List Segment :=
  playlist.seg_results.foldl (fun acc r => acc ++ r.segments) []

/-- Bandwidth `int(ceil(total_bytes / total_duration * 8))`
(line 84). -/
def iframe_bandwidth (total_bytes : ℤ) (total_duration : ℚ) : ℤ :=
  ⌈(total_bytes : ℚ) / total_duration * 8⌉

/-- The `m3u8.IFramePlaylist` reference attached to the master playlist
(lines 89-95): its URI and its `iframe_stream_info`. -/
structure IFramePlaylistRef where
  uri : List Char
  bandwidth : ℤ
  codecs : Option (List Char)
deriving DecidableEq, Repr

/-- The data dict returned for one rendition (lines 97-98): the I-frame
playlist URI and its content, the latter modelled by the list of I-frame
segments serialized into it. -/
structure PlaylistData where
  uri : List Char
  segments : List Segment
deriving DecidableEq, Repr

/-- Model of `create_iframe_playlist` (`generator.py` lines 52-98) without its
external collaborators: sums the per-segment results, skips the rendition
(returns `none`) when either total is zero, and otherwise builds the
I-frame playlist reference and data. -/
def create_iframe_playlist (playlist : Rendition) :
    Option (IFramePlaylistRef × PlaylistData) :=
  let total_bytes := rendition_total_bytes playlist
  let total_duration := rendition_total_duration playlist
  if total_bytes ≠ 0 ∧ total_duration ≠ 0 then
    let iframe_playlist_uri := replace_dot_m3u8 playlist.uri
    some
      ({ uri := iframe_playlist_uri,
         bandwidth := iframe_bandwidth total_bytes total_duration,
         codecs := convert_codecs_for_iframes playlist.codecs },
       { uri := iframe_playlist_uri,
         segments := rendition_all_segments playlist })
  else none

/-- The per-rendition loop of `update_for_iframes` (`generator.py`
lines 41-46): renditions whose builder returns `None` are skipped;
the others are appended to the master playlist's I-frame references
(cleared beforehand at line 34) and to `result['iframe_playlists']`. -/
def update_for_iframes (playlists : List Rendition) :
    List IFramePlaylistRef × List PlaylistData :=
  playlists.foldl
    (fun acc p =>
      match create_iframe_playlist p with
      | none => acc
      | some (ipl, data) => (acc.1 ++ [ipl], acc.2 ++ [data]))
    ([], [])

/-- Is the row one with an invalid discriminator? -/
def Row.isOther : Row → Bool
  | .other _ => true
  | _ => false

/-- The `video_duration` a row list leaves behind: the `duration` field of
the last `format` row, `0` if there is none (`generator.py` lines 120,
233). -/
def last_format_duration (rows : List Row) : ℚ :=
  rows.foldl
    (fun acc r => match r with | .format _ d => d | _ => acc) 0

/-! ## Helper lemmas -/

theorem setLast_cons_cons (f : Segment → Segment) (x y : Segment)
    (z : List Segment) :
    setLast f (x :: y :: z) = x :: setLast f (y :: z) := rfl

theorem setLast_append_singleton (f : Segment → Segment) (l : List Segment)
    (a : Segment) : setLast f (l ++ [a]) = l ++ [f a] := by
  induction l with
  | nil => rfl
  | cons x l ih =>
    cases l with
    | nil => rfl
    | cons y l' =>
      simp only [List.cons_append] at ih ⊢
      rw [setLast_cons_cons, ih]

/-- C1: whenever a FrameRecord with picture_type = I is processed while the
carried pending state holds a previous I-frame (a truthy `displayed_at`,
i.e. `some d` with `d ≠ 0`), the duration of the most recently appended
IFrameSegment is set to `current.displayed_at − pending.displayed_at`, a
new IFrameSegment with unset duration and unset byte range is appended, and
pending is reset to the current frame's displayed_at, byte_position and
byte_size (`generator.py` lines 194-207). -/
theorem iframe_record_closes_pending_segment (t : ℚ) (pos sz : ℤ) (d : ℚ)
    (posOpt szOpt : Option ℤ) (u b : String) (init : List Segment)
    (lastSeg : Segment) (total : ℤ) (hd : d ≠ 0) :
    (_process_video_frame t pos sz "I" ⟨some d, posOpt, szOpt⟩ u b
        (init ++ [lastSeg]) total).1 = ⟨some t, some pos, some sz⟩ ∧
    ∃ br',
      (_process_video_frame t pos sz "I" ⟨some d, posOpt, szOpt⟩ u b
          (init ++ [lastSeg]) total).2.1 =
        init ++ [{ lastSeg with duration := some (t - d), byterange := br' },
          ⟨u, b, none, none⟩] := by
  obtain ⟨lu, lb, ld, lbr⟩ := lastSeg
  have htq : truthyQ (some d) = true := by simp [truthyQ, hd]
  unfold _process_video_frame
  by_cases hp : truthyZ posOpt
  · refine ⟨by simp [hp], some (pos - posOpt.getD 0, posOpt.getD 0), ?_⟩
    simp [hp, htq, setLast_append_singleton]
  · refine ⟨by simp [hp], lbr, ?_⟩
    simp [hp, htq, setLast_append_singleton]

theorem iframe_record_closes_pending_segment_witness :
    (_process_video_frame 2 100 10 "I" ⟨some 1, none, none⟩ "u" "b"
        ([] ++ [⟨"u", "b", none, none⟩]) 0).1 = ⟨some 2, some 100, some 10⟩ ∧
    ∃ br',
      (_process_video_frame 2 100 10 "I" ⟨some 1, none, none⟩ "u" "b"
          ([] ++ [⟨"u", "b", none, none⟩]) 0).2.1 =
        [] ++ [{ Segment.mk "u" "b" none none with
                   duration := some ((2 : ℚ) - 1), byterange := br' },
          ⟨"u", "b", none, none⟩] :=
  iframe_record_closes_pending_segment 2 100 10 1 none none "u" "b" []
    ⟨"u", "b", none, none⟩ 0 (by norm_num)

/-- C2: for every FrameRecord (of any picture type) processed while the
pending I-frame's byte_position is observable (truthy: `some p`, `p ≠ 0`),
the previous IFrameSegment's byte range is set to
`(length, offset) = (current.byte_position − pending.byte_position,
pending.byte_position)` and that length is added to the running
`iframes_total_size` (`generator.py` lines 183-192). -/
theorem frame_record_sets_previous_byterange (t : ℚ) (pos sz p : ℤ)
    (pt : String) (da : Option ℚ) (szOpt : Option ℤ) (u b : String)
    (init : List Segment) (lastSeg : Segment) (total : ℤ) (hp : p ≠ 0) :
    ∃ dur' rest,
      (_process_video_frame t pos sz pt ⟨da, some p, szOpt⟩ u b
          (init ++ [lastSeg]) total).2.1 =
        init ++ ({ lastSeg with byterange := some (pos - p, p), duration := dur' } :: rest) ∧
      (_process_video_frame t pos sz pt ⟨da, some p, szOpt⟩ u b
          (init ++ [lastSeg]) total).2.2 = total + (pos - p) := by
  obtain ⟨lu, lb, ld, lbr⟩ := lastSeg
  have hzp : truthyZ (some p) = true := by simp [truthyZ, hp]
  unfold _process_video_frame
  by_cases hI : pt = "I"
  · by_cases htq : truthyQ da
    · exact ⟨some (t - da.getD 0), [⟨u, b, none, none⟩],
        by simp [hI, htq, hzp, setLast_append_singleton],
        by simp [hI, hzp]⟩
    · exact ⟨ld, [⟨u, b, none, none⟩],
        by simp [hI, htq, hzp, setLast_append_singleton],
        by simp [hI, hzp]⟩
  · exact ⟨ld, [],
      by simp [hI, hzp, setLast_append_singleton],
      by simp [hI, hzp]⟩

theorem frame_record_sets_previous_byterange_witness :
    ∃ dur' rest,
      (_process_video_frame 2 100 10 "P" ⟨some 1, some 40, some 7⟩ "u" "b"
          ([] ++ [⟨"u", "b", none, none⟩]) 0).2.1 =
        [] ++ ({ Segment.mk "u" "b" none none with byterange := some ((100 : ℤ) - 40, (40 : ℤ)), duration := dur' } :: rest) ∧
      (_process_video_frame 2 100 10 "P" ⟨some 1, some 40, some 7⟩ "u" "b"
          ([] ++ [⟨"u", "b", none, none⟩]) 0).2.2 = 0 + ((100 : ℤ) - 40) :=
  frame_record_sets_previous_byterange 2 100 10 40 "P" (some 1) (some 7)
    "u" "b" [] ⟨"u", "b", none, none⟩ 0 (by norm_num)

/-- C3: a terminal FormatRecord processed while pending is non-empty
(truthy `displayed_at = some tq`, `tq ≠ 0`; `position` and `size`
arbitrary) sets the last IFrameSegment's duration to
`start_time + duration − pending.displayed_at` and returns the
FormatRecord's duration as the transport-stream segment's `video_duration`
(first conjunct, any pending position state).  When pending's position was
already consumed to `None` by a following frame — the byte range was set
earlier, the common path — the byte range and total are left untouched
(second conjunct); when the position is still held (truthy `some p`,
`p ≠ 0` — the byte range was never set), the byte range is set from
pending's byte size and position and the size is added to the total
(third conjunct) (`generator.py` lines 210-247).  In particular a single
I-frame at `displayed_at = 10.000` followed by `format,9.881,0.238`
yields a segment of duration `0.119` and `total_duration = 0.238`, and
the two-I-frame probe scenario of the spec yields durations `9.266667`
and `0.733333` with `total_duration = 10.119`. -/
theorem format_record_closes_last_segment (st dur tq : ℚ)
    (posOpt szOpt : Option ℤ) (init : List Segment) (lastSeg : Segment)
    (total : ℤ) (ht : tq ≠ 0) :
    (∃ br' total',
      _process_video_details st dur ⟨some tq, posOpt, szOpt⟩
          (init ++ [lastSeg]) total =
        (init ++ [{ lastSeg with duration := some (st + dur - tq), byterange := br' }],
         total', dur)) ∧
    (_process_video_details st dur ⟨some tq, none, szOpt⟩
        (init ++ [lastSeg]) total =
      (init ++ [{ lastSeg with duration := some (st + dur - tq) }],
       total, dur)) ∧
    (∀ p : ℤ, p ≠ 0 →
      _process_video_details st dur ⟨some tq, some p, szOpt⟩
          (init ++ [lastSeg]) total =
        (init ++ [{ lastSeg with duration := some (st + dur - tq), byterange := some (szOpt.getD 0, p) }],
         total + szOpt.getD 0, dur)) ∧
    (create_iframe_segments "u" "b"
        [Row.frame 10 3008 175 "I", Row.format (9881/1000) (238/1000)] =
      .ok ([⟨"u", "b", some (119/1000), some (175, 3008)⟩], 175, 238/1000)) ∧
    (create_iframe_segments "u" "b"
        [Row.frame 10 3008 175 "I",
         Row.frame (10066667/1000000) 3196 385 "P",
         Row.frame (19266667/1000000) 188376 18539 "I",
         Row.frame (19333333/1000000) 210184 148 "P",
         Row.format (9881/1000) (10119/1000)] =
      .ok ([⟨"u", "b", some (9266667/1000000), some (188, 3008)⟩,
            ⟨"u", "b", some (733333/1000000), some (21808, 188376)⟩],
           21996, 10119/1000)) := by
  obtain ⟨lu, lb, ld, lbr⟩ := lastSeg
  have htq : truthyQ (some tq) = true := by simp [truthyQ, ht]
  have hnone :
      _process_video_details st dur ⟨some tq, none, szOpt⟩
          (init ++ [⟨lu, lb, ld, lbr⟩]) total =
        (init ++ [⟨lu, lb, some (st + dur - tq), lbr⟩], total, dur) := by
    unfold _process_video_details
    simp [htq, truthyZ, setLast_append_singleton]
  have hheld : ∀ p : ℤ, p ≠ 0 →
      _process_video_details st dur ⟨some tq, some p, szOpt⟩
          (init ++ [⟨lu, lb, ld, lbr⟩]) total =
        (init ++ [⟨lu, lb, some (st + dur - tq), some (szOpt.getD 0, p)⟩],
         total + szOpt.getD 0, dur) := by
    intro p hp
    have hzp : truthyZ (some p) = true := by simp [truthyZ, hp]
    unfold _process_video_details
    simp [htq, hzp, setLast_append_singleton]
  refine ⟨?_, hnone, hheld, ?_, ?_⟩
  · cases posOpt with
    | none => exact ⟨lbr, total, hnone⟩
    | some p =>
      by_cases hp : p = 0
      · refine ⟨lbr, total, ?_⟩
        subst hp
        unfold _process_video_details
        simp [htq, truthyZ, setLast_append_singleton]
      · exact ⟨some (szOpt.getD 0, p), total + szOpt.getD 0, hheld p hp⟩
  · norm_num [create_iframe_segments, create_iframe_segments_loop,
      _process_video_frame, _process_video_details, truthyQ, truthyZ, setLast]
  · have hPI : ("P" : String) = "I" ↔ False := by
      simp only [iff_false]
      decide
    norm_num [create_iframe_segments, create_iframe_segments_loop,
      _process_video_frame, _process_video_details, truthyQ, truthyZ,
      setLast, hPI]

theorem format_record_closes_last_segment_witness :
    _process_video_details (9881/1000) (238/1000) ⟨some 10, none, some 175⟩
        ([] ++ [⟨"u", "b", none, none⟩]) 0 =
      ([] ++ [{ Segment.mk "u" "b" none none with duration := some ((9881 : ℚ)/1000 + 238/1000 - 10) }],
       0, 238/1000) :=
  (format_record_closes_last_segment (9881/1000) (238/1000) 10 none (some 175)
    [] ⟨"u", "b", none, none⟩ 0 (by norm_num)).2.1

/-- C4 counterexample: a record sequence with zero FrameRecords but a
FormatRecord of nonzero duration does NOT return totals
`{total_bytes: 0, total_duration: 0}`: the synthesizer returns the
FormatRecord's duration (`0.238 ≠ 0`) as `video_duration`
(`generator.py` lines 232-233, 247). -/
theorem zero_framerecords_zero_totals_cx :
    create_iframe_segments "u" "b" [Row.format (9881/1000) (238/1000)] =
      .ok ([], 0, 238/1000) ∧ (238/1000 : ℚ) ≠ 0 := by
  constructor
  · norm_num [create_iframe_segments, create_iframe_segments_loop,
      _process_video_details, truthyQ, truthyZ]
  · norm_num

/-- C4 (amended): for every record sequence containing zero FrameRecords,
the synthesizer returns an empty segment list, `total_bytes = 0`, and
`video_duration` equal to the duration of the last FormatRecord (`0` if
there is none); in particular a FormatRecord with no preceding I-frame
mutates nothing and does not fail. -/
theorem zero_framerecords_amended (u b : String) (rows : List Row)
    (h : ∀ r ∈ rows, ∃ st d, r = Row.format st d) :
    create_iframe_segments u b rows = .ok ([], 0, last_format_duration rows) ∧
    ∀ (st d : ℚ) (segs : List Segment) (total : ℤ),
      _process_video_details st d ⟨none, none, none⟩ segs total =
        (segs, total, d) := by
  have hdetails : ∀ (st d : ℚ) (segs : List Segment) (total : ℤ),
      _process_video_details st d ⟨none, none, none⟩ segs total =
        (segs, total, d) := by
    intro st d segs total
    simp [_process_video_details, truthyQ, truthyZ]
  refine ⟨?_, hdetails⟩
  have key : ∀ (rs : List Row), (∀ r ∈ rs, ∃ st d, r = Row.format st d) →
      ∀ dur0 : ℚ,
        create_iframe_segments_loop u b rs ⟨none, none, none⟩ [] 0 dur0 =
          .ok ([], 0, rs.foldl
            (fun acc r => match r with | .format _ d => d | _ => acc) dur0) := by
    intro rs
    induction rs with
    | nil => intro _ dur0; rfl
    | cons r rest ih =>
      intro hall dur0
      obtain ⟨st, d, rfl⟩ := hall r (List.mem_cons_self r rest)
      have := hdetails st d [] 0
      simp only [create_iframe_segments_loop, this, List.foldl_cons]
      exact ih (fun r hr => hall r (List.mem_cons_of_mem _ hr)) d
  exact key rows h 0

theorem zero_framerecords_amended_witness :
    create_iframe_segments "u" "b" [Row.format (9881/1000) (238/1000)] =
      .ok ([], 0, last_format_duration [Row.format (9881/1000) (238/1000)]) :=
  (zero_framerecords_amended "u" "b" [Row.format (9881/1000) (238/1000)]
    (by intro r hr; simp at hr; exact ⟨9881/1000, 238/1000, hr⟩)).1

/-- C5: a pending `displayed_at` equal to `0.0`, or a pending
`byte_position` equal to `0`, is falsy in Python; the synthesizer then
treats that part of the pending state as empty, independently of the other
part: a subsequent I-frame does not set the previous segment's duration
(conjuncts 1-3, for pending position `0`, `None`, and truthy `p ≠ 0`
respectively — in the last mixed case the byte range is still set from the
positional delta while the duration is skipped); a subsequent I-frame with
pending position `0` does not set the byte range even when the duration is
set (conjunct 4); a subsequent non-I frame with pending position `0`
mutates nothing (conjunct 5); the terminal FormatRecord does not close out
a falsy part (conjuncts 6-8: both parts zero; `displayed_at = 0` with
truthy position, where the byte-size fallback still fires; truthy
`displayed_at` with position `0`, where only the duration is set).
Consequently the first segment of a transport-stream segment whose I-frame
is displayed at time zero and positioned at byte zero is emitted with
neither duration nor byte range set (conjunct 9), and one displayed at
time zero with a nonzero byte position is emitted with its byte range set
but its duration never set (conjunct 10) (`generator.py` lines 183, 195,
234, 240). -/
theorem zero_pending_treated_as_empty :
    (∀ (t : ℚ) (pos sz sz0 : ℤ) (u b : String) (segs : List Segment)
        (total : ℤ),
      _process_video_frame t pos sz "I" ⟨some 0, some 0, some sz0⟩ u b
          segs total =
        (⟨some t, some pos, some sz⟩, segs ++ [⟨u, b, none, none⟩], total)) ∧
    (∀ (t : ℚ) (pos sz sz0 : ℤ) (u b : String) (segs : List Segment)
        (total : ℤ),
      _process_video_frame t pos sz "I" ⟨some 0, none, some sz0⟩ u b
          segs total =
        (⟨some t, some pos, some sz⟩, segs ++ [⟨u, b, none, none⟩], total)) ∧
    (∀ (t : ℚ) (pos sz p : ℤ) (szOpt : Option ℤ) (u b : String)
        (init : List Segment) (lastSeg : Segment) (total : ℤ), p ≠ 0 →
      _process_video_frame t pos sz "I" ⟨some 0, some p, szOpt⟩ u b
          (init ++ [lastSeg]) total =
        (⟨some t, some pos, some sz⟩,
         init ++ [{ lastSeg with byterange := some (pos - p, p) },
           ⟨u, b, none, none⟩],
         total + (pos - p))) ∧
    (∀ (t : ℚ) (pos sz : ℤ) (d : ℚ) (szOpt : Option ℤ) (u b : String)
        (init : List Segment) (lastSeg : Segment) (total : ℤ), d ≠ 0 →
      _process_video_frame t pos sz "I" ⟨some d, some 0, szOpt⟩ u b
          (init ++ [lastSeg]) total =
        (⟨some t, some pos, some sz⟩,
         init ++ [{ lastSeg with duration := some (t - d) },
           ⟨u, b, none, none⟩],
         total)) ∧
    (∀ (t : ℚ) (pos sz : ℤ) (da : Option ℚ) (szOpt : Option ℤ)
        (u b : String) (segs : List Segment) (total : ℤ),
      _process_video_frame t pos sz "P" ⟨da, some 0, szOpt⟩ u b segs total =
        (⟨da, some 0, szOpt⟩, segs, total)) ∧
    (∀ (st dur : ℚ) (sz0 : ℤ) (segs : List Segment) (total : ℤ),
      _process_video_details st dur ⟨some 0, some 0, some sz0⟩ segs total =
        (segs, total, dur)) ∧
    (∀ (st dur : ℚ) (p : ℤ) (szOpt : Option ℤ) (init : List Segment)
        (lastSeg : Segment) (total : ℤ), p ≠ 0 →
      _process_video_details st dur ⟨some 0, some p, szOpt⟩
          (init ++ [lastSeg]) total =
        (init ++ [{ lastSeg with byterange := some (szOpt.getD 0, p) }],
         total + szOpt.getD 0, dur)) ∧
    (∀ (st dur tq : ℚ) (szOpt : Option ℤ) (init : List Segment)
        (lastSeg : Segment) (total : ℤ), tq ≠ 0 →
      _process_video_details st dur ⟨some tq, some 0, szOpt⟩
          (init ++ [lastSeg]) total =
        (init ++ [{ lastSeg with duration := some (st + dur - tq) }],
         total, dur)) ∧
    (create_iframe_segments "u" "b"
        [Row.frame 0 0 175 "I", Row.format (9881/1000) (238/1000)] =
      .ok ([⟨"u", "b", none, none⟩], 0, 238/1000)) ∧
    (create_iframe_segments "u" "b"
        [Row.frame 0 3008 175 "I", Row.frame (66667/1000000) 3196 385 "P",
         Row.format (9881/1000) (10119/1000)] =
      .ok ([⟨"u", "b", none, some (188, 3008)⟩], 188, 10119/1000)) := by
  refine ⟨?_, ?_, ?_, ?_, ?_, ?_, ?_, ?_, ?_, ?_⟩
  · intro t pos sz sz0 u b segs total
    simp [_process_video_frame, truthyQ, truthyZ]
  · intro t pos sz sz0 u b segs total
    simp [_process_video_frame, truthyQ, truthyZ]
  · intro t pos sz p szOpt u b init lastSeg total hp
    obtain ⟨lu, lb, ld, lbr⟩ := lastSeg
    have hzp : truthyZ (some p) = true := by simp [truthyZ, hp]
    simp [_process_video_frame, truthyQ, hzp, setLast_append_singleton]
  · intro t pos sz d szOpt u b init lastSeg total hd
    obtain ⟨lu, lb, ld, lbr⟩ := lastSeg
    have htq : truthyQ (some d) = true := by simp [truthyQ, hd]
    simp [_process_video_frame, htq, truthyZ, setLast_append_singleton]
  · intro t pos sz da szOpt u b segs total
    simp [_process_video_frame, truthyZ]
  · intro st dur sz0 segs total
    simp [_process_video_details, truthyQ, truthyZ]
  · intro st dur p szOpt init lastSeg total hp
    obtain ⟨lu, lb, ld, lbr⟩ := lastSeg
    have hzp : truthyZ (some p) = true := by simp [truthyZ, hp]
    simp [_process_video_details, truthyQ, hzp, setLast_append_singleton]
  · intro st dur tq szOpt init lastSeg total htq0
    obtain ⟨lu, lb, ld, lbr⟩ := lastSeg
    have htq : truthyQ (some tq) = true := by simp [truthyQ, htq0]
    simp [_process_video_details, htq, truthyZ, setLast_append_singleton]
  · norm_num [create_iframe_segments, create_iframe_segments_loop,
      _process_video_frame, _process_video_details, truthyQ, truthyZ, setLast]
  · have hPI : ("P" : String) = "I" ↔ False := by
      simp only [iff_false]
      decide
    norm_num [create_iframe_segments, create_iframe_segments_loop,
      _process_video_frame, _process_video_details, truthyQ, truthyZ,
      setLast, hPI]

theorem zero_pending_treated_as_empty_witness :
    _process_video_frame 2 100 10 "I" ⟨some 0, some 40, some 7⟩ "u" "b"
        ([] ++ [⟨"u", "b", none, none⟩]) 0 =
      (⟨some 2, some 100, some 10⟩,
       [] ++ [{ Segment.mk "u" "b" none none with byterange := some ((100 : ℤ) - 40, (40 : ℤ)) },
         ⟨"u", "b", none, none⟩],
       0 + ((100 : ℤ) - 40)) :=
  zero_pending_treated_as_empty.2.2.1 2 100 10 40 (some 7) "u" "b" []
    ⟨"u", "b", none, none⟩ 0 (by norm_num)

/-- C6: a rendition whose summed totals have `total_bytes = 0` or
`total_duration = 0` makes the builder return nothing rather than raise,
and is excluded from both the master playlist's I-frame references and the
output bundle's `iframe_playlists`, while the other renditions of the same
update call are processed exactly as if the skipped rendition were absent
(`generator.py` lines 83-86 and 41-46). -/
theorem zero_totals_rendition_skipped (p : Rendition)
    (h : rendition_total_bytes p = 0 ∨ rendition_total_duration p = 0) :
    create_iframe_playlist p = none ∧
    ∀ l1 l2 : List Rendition,
      update_for_iframes (l1 ++ p :: l2) = update_for_iframes (l1 ++ l2) := by
  have hnone : create_iframe_playlist p = none := by
    unfold create_iframe_playlist
    rcases h with h | h <;> simp [h]
  refine ⟨hnone, fun l1 l2 => ?_⟩
  unfold update_for_iframes
  rw [List.foldl_append, List.foldl_append, List.foldl_cons, hnone]

theorem zero_totals_rendition_skipped_witness :
    create_iframe_playlist ⟨"r.m3u8".toList, none, []⟩ = none ∧
    ∀ l1 l2 : List Rendition,
      update_for_iframes (l1 ++ ⟨"r.m3u8".toList, none, []⟩ :: l2) =
        update_for_iframes (l1 ++ l2) :=
  zero_totals_rendition_skipped ⟨"r.m3u8".toList, none, []⟩
    (Or.inl rfl)

/-- C7: for every rendition with positive totals, the bandwidth
`int(ceil(total_bytes / total_duration * 8))` equals the ceiling of the
exact ratio `total_bytes * 8 / total_duration`, is monotonically
non-decreasing in `total_bytes` for fixed `total_duration`, and is never
under-reported (`generator.py` line 84). -/
theorem bandwidth_ceil_monotone (b : ℤ) (d : ℚ) (hb : 0 < b) (hd : 0 < d) :
    iframe_bandwidth b d = ⌈((b : ℚ) * 8) / d⌉ ∧
    (∀ b' : ℤ, b ≤ b' → iframe_bandwidth b d ≤ iframe_bandwidth b' d) ∧
    ((b : ℚ) * 8) / d ≤ (iframe_bandwidth b d : ℚ) := by
  have key : ∀ x : ℤ, (x : ℚ) / d * 8 = ((x : ℚ) * 8) / d := fun x => by ring
  refine ⟨?_, ?_, ?_⟩
  · unfold iframe_bandwidth
    rw [key]
  · intro b' hb'
    unfold iframe_bandwidth
    apply Int.ceil_le_ceil
    have hcast : (b : ℚ) ≤ (b' : ℚ) := by exact_mod_cast hb'
    rw [key, key]
    gcongr
  · rw [← key]
    exact Int.le_ceil _

theorem bandwidth_ceil_monotone_witness :
    iframe_bandwidth 3 2 = ⌈(((3 : ℤ) : ℚ) * 8) / 2⌉ ∧
    (((3 : ℤ) : ℚ) * 8) / 2 ≤ (iframe_bandwidth 3 2 : ℚ) :=
  ⟨(bandwidth_ceil_monotone 3 2 (by norm_num) (by norm_num)).1,
   (bandwidth_ceil_monotone 3 2 (by norm_num) (by norm_num)).2.2⟩

/-- C10: a record whose discriminator is neither `"frame"` nor `"format"`
makes `create_iframe_segments` fail with the `MalformedRecordError`
(`ValueError` in the code) identifying the offending discriminator
(`generator.py` lines 143-145). -/
theorem invalid_row_type_error (u b : String) (pre post : List Row)
    (d : String) (hpre : ∀ r ∈ pre, r.isOther = false)
    (hd1 : d ≠ "frame") (hd2 : d ≠ "format") :
    create_iframe_segments u b (pre ++ Row.other d :: post) =
      .error (.malformedRecord d) := by
  have key : ∀ (rs : List Row), (∀ r ∈ rs, r.isOther = false) →
      ∀ prev segs total dur,
        create_iframe_segments_loop u b (rs ++ Row.other d :: post)
            prev segs total dur =
          .error (.malformedRecord d) := by
    intro rs
    induction rs with
    | nil => intro _ prev segs total dur; rfl
    | cons r rest ih =>
      intro hall prev segs total dur
      have hr : r.isOther = false := hall r (List.mem_cons_self r rest)
      have hrest := fun r hm => hall r (List.mem_cons_of_mem _ hm)
      cases r with
      | frame t pos sz pt =>
        simp only [List.cons_append, create_iframe_segments_loop]
        exact ih hrest _ _ _ _
      | format st dd =>
        simp only [List.cons_append, create_iframe_segments_loop]
        exact ih hrest _ _ _ _
      | other dec => simp [Row.isOther] at hr
  exact key pre hpre ⟨none, none, none⟩ [] 0 0

theorem invalid_row_type_error_witness :
    create_iframe_segments "u" "b"
        ([Row.frame 10 3008 175 "I"] ++ Row.other "side_data" :: []) =
      .error (.malformedRecord "side_data") :=
  invalid_row_type_error "u" "b" [Row.frame 10 3008 175 "I"] [] "side_data"
    (by intro r hr; simp at hr; subst hr; rfl)
    (by decide) (by decide)



/-! ## Injectivity of the I-frame playlist URI transformation -/

theorem startsWithChars_iff (n : List Char) : ∀ l : List Char,
    startsWithChars n l = true ↔ ∃ t, l = n ++ t := by
  induction n with
  | nil => intro l; simp [startsWithChars]
  | cons a as ih =>
    intro l
    cases l with
    | nil => simp [startsWithChars]
    | cons b bs =>
      simp only [startsWithChars, Bool.and_eq_true, decide_eq_true_eq, ih,
        List.cons_append, List.cons.injEq]
      constructor
      · rintro ⟨rfl, t, rfl⟩
        exact ⟨t, rfl, rfl⟩
      · rintro ⟨t, rfl, rfl⟩
        exact ⟨rfl, t, rfl⟩

theorem swm_true_iff (r : List Char) :
    startsWithM3u8 r = true ↔
      ∃ t, r = '.' :: 'm' :: '3' :: 'u' :: '8' :: t :=
  startsWithChars_iff ['.', 'm', '3', 'u', '8'] r

theorem replace_cons_ne (c : Char) (rest : List Char)
    (h : startsWithM3u8 (c :: rest) = false) :
    replace_dot_m3u8 (c :: rest) = c :: replace_dot_m3u8 rest := by
  rw [replace_dot_m3u8.eq_def]
  split
  · rename_i t heq
    rw [heq] at h
    have : startsWithM3u8 ('.' :: 'm' :: '3' :: 'u' :: '8' :: t) = true :=
      (swm_true_iff _).mpr ⟨t, rfl⟩
    rw [this] at h
    exact absurd h (by simp)
  · rename_i heq1 c' rest' heq
    injection heq with e1 e2
    rw [e1, e2]
  · rename_i heq
    exact absurd heq (by simp)

theorem replace_peel (c : Char) (hc : c ≠ '-') (r x : List Char)
    (h : replace_dot_m3u8 r = c :: x) :
    ∃ r', r = c :: r' ∧ replace_dot_m3u8 r' = x ∧
      startsWithM3u8 r = false := by
  cases hs : startsWithM3u8 r with
  | true =>
    obtain ⟨t, rfl⟩ := (swm_true_iff r).mp hs
    rw [show replace_dot_m3u8 ('.' :: 'm' :: '3' :: 'u' :: '8' :: t) =
      '-' :: 'i' :: 'f' :: 'r' :: 'a' :: 'm' :: 'e' :: 's' ::
        '.' :: 'm' :: '3' :: 'u' :: '8' :: replace_dot_m3u8 t from rfl] at h
    injection h with h1 _
    exact absurd h1.symm hc
  | false =>
    cases r with
    | nil => exact absurd h (by simp [replace_dot_m3u8])
    | cons a r' =>
      rw [replace_cons_ne a r' hs] at h
      injection h with h1 h2
      exact ⟨r', by rw [h1], h2, rfl⟩

theorem replace_no_pat (r x : List Char) :
    replace_dot_m3u8 r ≠ '.' :: 'm' :: '3' :: 'u' :: '8' :: x := by
  intro h
  obtain ⟨r1, rfl, h1, hs⟩ := replace_peel '.' (by decide) r _ h
  obtain ⟨r2, rfl, h2, -⟩ := replace_peel 'm' (by decide) r1 _ h1
  obtain ⟨r3, rfl, h3, -⟩ := replace_peel '3' (by decide) r2 _ h2
  obtain ⟨r4, rfl, h4, -⟩ := replace_peel 'u' (by decide) r3 _ h3
  obtain ⟨r5, rfl, h5, -⟩ := replace_peel '8' (by decide) r4 _ h4
  have : startsWithM3u8 ('.' :: 'm' :: '3' :: 'u' :: '8' :: r5) = true :=
    (swm_true_iff _).mpr ⟨r5, rfl⟩
  rw [this] at hs
  exact absurd hs (by simp)

theorem replace_no_ifr_tail (r x : List Char) :
    replace_dot_m3u8 r ≠ 'i' :: 'f' :: 'r' :: 'a' :: 'm' :: 'e' :: 's' ::
      '.' :: 'm' :: '3' :: 'u' :: '8' :: x := by
  intro h
  obtain ⟨r1, rfl, h1, -⟩ := replace_peel 'i' (by decide) r _ h
  obtain ⟨r2, rfl, h2, -⟩ := replace_peel 'f' (by decide) r1 _ h1
  obtain ⟨r3, rfl, h3, -⟩ := replace_peel 'r' (by decide) r2 _ h2
  obtain ⟨r4, rfl, h4, -⟩ := replace_peel 'a' (by decide) r3 _ h3
  obtain ⟨r5, rfl, h5, -⟩ := replace_peel 'm' (by decide) r4 _ h4
  obtain ⟨r6, rfl, h6, -⟩ := replace_peel 'e' (by decide) r5 _ h5
  obtain ⟨r7, rfl, h7, -⟩ := replace_peel 's' (by decide) r6 _ h6
  exact replace_no_pat r7 x h7

theorem replace_pat_eq (rest : List Char) :
    replace_dot_m3u8 ('.' :: 'm' :: '3' :: 'u' :: '8' :: rest) =
      '-' :: 'i' :: 'f' :: 'r' :: 'a' :: 'm' :: 'e' :: 's' ::
        '.' :: 'm' :: '3' :: 'u' :: '8' :: replace_dot_m3u8 rest := rfl

theorem replace_ne_nil_cons (v : List Char) (c : Char) (x : List Char) :
    replace_dot_m3u8 v = c :: x → v ≠ [] := by
  intro h hv
  rw [hv] at h
  exact absurd h (by simp [replace_dot_m3u8])

theorem replace_inj_aux : ∀ (n : ℕ) (u v : List Char), u.length ≤ n →
    replace_dot_m3u8 u = replace_dot_m3u8 v → u = v := by
  intro n
  induction n with
  | zero =>
    intro u v hu h
    have hu0 : u = [] := List.length_eq_zero.mp (Nat.le_zero.mp hu)
    subst hu0
    cases v with
    | nil => rfl
    | cons c v' =>
      exfalso
      cases hsv : startsWithM3u8 (c :: v') with
      | true =>
        obtain ⟨t, ht⟩ := (swm_true_iff _).mp hsv
        rw [ht, replace_pat_eq] at h
        exact absurd h (by simp [replace_dot_m3u8])
      | false =>
        rw [replace_cons_ne c v' hsv] at h
        exact absurd h (by simp [replace_dot_m3u8])
  | succ n ih =>
    intro u v hu h
    cases hsu : startsWithM3u8 u with
    | true =>
      obtain ⟨u', rfl⟩ := (swm_true_iff u).mp hsu
      cases hsv : startsWithM3u8 v with
      | true =>
        obtain ⟨v', rfl⟩ := (swm_true_iff v).mp hsv
        rw [replace_pat_eq, replace_pat_eq] at h
        simp only [List.cons.injEq, true_and] at h
        have hlen : u'.length ≤ n := by
          simp only [List.length_cons] at hu
          omega
        rw [ih u' v' hlen h]
      | false =>
        exfalso
        rw [replace_pat_eq] at h
        cases v with
        | nil => exact absurd h (by simp [replace_dot_m3u8])
        | cons c v' =>
          rw [replace_cons_ne c v' hsv] at h
          injection h with e1 e2
          exact replace_no_ifr_tail v' (replace_dot_m3u8 u') e2.symm
    | false =>
      cases hsv : startsWithM3u8 v with
      | true =>
        exfalso
        obtain ⟨v', rfl⟩ := (swm_true_iff v).mp hsv
        rw [replace_pat_eq] at h
        cases u with
        | nil => exact absurd h (by simp [replace_dot_m3u8])
        | cons c u' =>
          rw [replace_cons_ne c u' hsu] at h
          injection h with e1 e2
          exact replace_no_ifr_tail u' (replace_dot_m3u8 v') e2
      | false =>
        cases u with
        | nil =>
          cases v with
          | nil => rfl
          | cons c v' =>
            rw [replace_cons_ne c v' hsv] at h
            exact absurd h (by simp [replace_dot_m3u8])
        | cons c u' =>
          cases v with
          | nil =>
            rw [replace_cons_ne c u' hsu] at h
            exact absurd h (by simp [replace_dot_m3u8])
          | cons c2 v' =>
            rw [replace_cons_ne c u' hsu, replace_cons_ne c2 v' hsv] at h
            injection h with e1 e2
            have hlen : u'.length ≤ n := by
              simp only [List.length_cons] at hu
              omega
            rw [e1, ih u' v' hlen e2]

/-- C9: the transformation `playlist.uri.replace('.m3u8', '-iframes.m3u8')`
deriving the I-frame playlist URI (`generator.py` line 91, used by
`create_iframe_playlist`) is deterministic (a pure function of the
rendition URI) and injective: distinct rendition URIs always yield
distinct I-frame playlist URIs. -/
theorem iframe_uri_injective (u v : List Char) (huv : u ≠ v) :
    replace_dot_m3u8 u ≠ replace_dot_m3u8 v := fun h =>
  huv (replace_inj_aux u.length u v (Nat.le_refl _) h)

theorem iframe_uri_injective_witness :
    replace_dot_m3u8 "a.m3u8".toList ≠ replace_dot_m3u8 "b.m3u8".toList :=
  iframe_uri_injective "a.m3u8".toList "b.m3u8".toList (by decide)

/-! ## Properties of the codec filter -/

theorem occursIn_iff (n : List Char) : ∀ l : List Char,
    occursIn n l = true ↔ ∃ a b, l = a ++ n ++ b := by
  intro l
  induction l with
  | nil =>
    simp only [occursIn, startsWithChars_iff]
    constructor
    · rintro ⟨t, ht⟩
      exact ⟨[], t, by simpa using ht⟩
    · rintro ⟨a, b, hab⟩
      have h3 : a = [] ∧ n = [] ∧ b = [] := by simpa using hab.symm
      exact ⟨[], by simp [h3.2.1]⟩
  | cons c t ih =>
    simp only [occursIn, Bool.or_eq_true, startsWithChars_iff, ih]
    constructor
    · rintro (⟨x, hx⟩ | ⟨a, b, hab⟩)
      · exact ⟨[], x, by simpa using hx⟩
      · exact ⟨c :: a, b, by simp [hab]⟩
    · rintro ⟨a, b, hab⟩
      cases a with
      | nil => exact Or.inl ⟨b, by simpa using hab⟩
      | cons d a' =>
        simp only [List.cons_append, List.cons.injEq] at hab
        exact Or.inr ⟨a', b, hab.2⟩

theorem occursIn_cons_of (n : List Char) (c : Char) (t : List Char)
    (h : occursIn n t = true) : occursIn n (c :: t) = true := by
  simp [occursIn, h]

theorem occursIn_dropWhile (n : List Char) (hn : n ≠ [])
    (hsp : ∀ c ∈ n, isPySpace c = false) : ∀ l : List Char,
    occursIn n l = true → occursIn n (l.dropWhile isPySpace) = true := by
  intro l
  induction l with
  | nil => intro h; simpa using h
  | cons c t ih =>
    intro h
    by_cases hc : isPySpace c
    · rw [List.dropWhile_cons_of_pos hc]
      apply ih
      cases n with
      | nil => exact absurd rfl hn
      | cons n0 n' =>
        have hn0 : isPySpace n0 = false := hsp n0 (List.mem_cons_self _ _)
        have hne : (n0 = c) = False := by
          simp only [eq_iff_iff, iff_false]
          intro e
          rw [e, hc] at hn0
          exact Bool.true_eq_false.mp hn0
        simp only [occursIn, startsWithChars, hne, decide_False,
          Bool.false_and, Bool.false_or] at h
        exact h
    · rwa [List.dropWhile_cons_of_neg hc]

theorem occursIn_reverse (n l : List Char) :
    occursIn n.reverse l.reverse = true ↔ occursIn n l = true := by
  constructor
  · intro h
    obtain ⟨a, b, hab⟩ := (occursIn_iff _ _).mp h
    apply (occursIn_iff n l).mpr
    refine ⟨b.reverse, a.reverse, ?_⟩
    have : l.reverse.reverse = (a ++ n.reverse ++ b).reverse := by rw [hab]
    simpa [List.reverse_append, List.append_assoc] using this
  · intro h
    obtain ⟨a, b, hab⟩ := (occursIn_iff _ _).mp h
    apply (occursIn_iff _ _).mpr
    refine ⟨b.reverse, a.reverse, ?_⟩
    simp [hab, List.reverse_append, List.append_assoc]

theorem occursIn_strip (k : List Char) (h : occursIn avc1 k = true) :
    occursIn avc1 (pyStrip k) = true := by
  have hn : avc1 ≠ [] := by decide
  have hsp : ∀ c ∈ avc1, isPySpace c = false := by decide
  have hnr : avc1.reverse ≠ [] := by decide
  have hspr : ∀ c ∈ avc1.reverse, isPySpace c = false := by decide
  have s1 := occursIn_dropWhile avc1 hn hsp k h
  have s2 : occursIn avc1.reverse (k.dropWhile isPySpace).reverse = true :=
    (occursIn_reverse avc1 (k.dropWhile isPySpace)).mpr s1
  have s3 := occursIn_dropWhile avc1.reverse hnr hspr _ s2
  have s4 : occursIn avc1.reverse (pyStrip k).reverse = true := by
    unfold pyStrip
    rwa [List.reverse_reverse]
  exact (occursIn_reverse avc1 (pyStrip k)).mp s4

theorem strip_decomp (k : List Char) : ∃ a b, k = a ++ pyStrip k ++ b := by
  refine ⟨k.takeWhile isPySpace,
    ((k.dropWhile isPySpace).reverse.takeWhile isPySpace).reverse, ?_⟩
  conv_lhs => rw [← List.takeWhile_append_dropWhile isPySpace k]
  rw [List.append_assoc]
  congr 1
  conv_lhs => rw [← List.reverse_reverse (k.dropWhile isPySpace),
    ← List.takeWhile_append_dropWhile isPySpace (k.dropWhile isPySpace).reverse]
  rw [List.reverse_append]
  rfl

theorem mem_strip_sub (k : List Char) (c : Char) (h : c ∈ pyStrip k) :
    c ∈ k := by
  obtain ⟨a, b, hk⟩ := strip_decomp k
  rw [hk]
  simp [h]

theorem dropWhile_head_not (p : Char → Bool) : ∀ (l : List Char) (c : Char)
    (t : List Char), l.dropWhile p = c :: t → p c = false := by
  intro l
  induction l with
  | nil => intro c t h; simp at h
  | cons a l' ih =>
    intro c t h
    by_cases ha : p a
    · rw [List.dropWhile_cons_of_pos ha] at h
      exact ih c t h
    · rw [List.dropWhile_cons_of_neg ha] at h
      injection h with h1 _
      rw [← h1]
      exact Bool.not_eq_true _ |>.mp ha

theorem dropWhile_idem (p : Char → Bool) (l : List Char) :
    (l.dropWhile p).dropWhile p = l.dropWhile p := by
  cases h : l.dropWhile p with
  | nil => rfl
  | cons c t =>
    rw [List.dropWhile_cons_of_neg]
    rw [dropWhile_head_not p l c t h]
    simp

theorem strip_head_not (k : List Char) (c : Char) (t : List Char)
    (h : pyStrip k = c :: t) : isPySpace c = false := by
  -- pyStrip k is a prefix of dropWhile isPySpace k, whose head is not a space
  have hd : (k.dropWhile isPySpace) =
      pyStrip k ++ ((k.dropWhile isPySpace).reverse.takeWhile isPySpace).reverse := by
    conv_lhs => rw [← List.reverse_reverse (k.dropWhile isPySpace),
      ← List.takeWhile_append_dropWhile isPySpace (k.dropWhile isPySpace).reverse]
    rw [List.reverse_append]
    rfl
  rw [h] at hd
  exact dropWhile_head_not isPySpace k c _ hd

theorem strip_idem (k : List Char) : pyStrip (pyStrip k) = pyStrip k := by
  have h1 : (pyStrip k).dropWhile isPySpace = pyStrip k := by
    cases h : pyStrip k with
    | nil => rfl
    | cons c t =>
      rw [List.dropWhile_cons_of_neg]
      rw [strip_head_not k c t h]
      simp
  unfold pyStrip
  rw [show pyStrip k = ((k.dropWhile isPySpace).reverse.dropWhile isPySpace).reverse
    from rfl] at h1
  rw [h1, List.reverse_reverse, dropWhile_idem]

theorem strip_cons_space (l : List Char) : pyStrip (' ' :: l) = pyStrip l := by
  unfold pyStrip
  rw [List.dropWhile_cons_of_pos (by decide : isPySpace ' ' = true)]

theorem split_ne_nil (s : List Char) : pySplitComma s ≠ [] := by
  cases s with
  | nil => simp [pySplitComma]
  | cons c rest =>
    simp only [pySplitComma]
    by_cases hc : c = ',' <;> simp [hc]

theorem split_no_comma : ∀ (s : List Char) (p : List Char),
    p ∈ pySplitComma s → ',' ∉ p := by
  intro s
  induction s with
  | nil =>
    intro p hp
    simp [pySplitComma] at hp
    simp [hp]
  | cons c rest ih =>
    intro p hp
    simp only [pySplitComma] at hp
    by_cases hc : c = ','
    · rw [if_pos hc] at hp
      rcases List.mem_cons.mp hp with rfl | hp'
      · simp
      · exact ih p hp'
    · rw [if_neg hc] at hp
      rcases List.mem_cons.mp hp with rfl | hp'
      · intro hmem
        rcases List.mem_cons.mp hmem with he | hmem'
        · exact hc he.symm
        · cases hr : pySplitComma rest with
          | nil => exact split_ne_nil rest hr
          | cons h0 t0 =>
            rw [hr] at hmem'
            simp only [List.headD_cons] at hmem'
            exact ih h0 (hr ▸ List.mem_cons_self h0 t0) hmem'
      · cases hr : pySplitComma rest with
        | nil => exact absurd hr (split_ne_nil rest)
        | cons h0 t0 =>
          rw [hr] at hp'
          simp only [List.tail_cons] at hp'
          exact ih p (hr ▸ List.mem_cons_of_mem h0 hp')

theorem strip_no_comma (k : List Char) (h : ',' ∉ k) : ',' ∉ pyStrip k :=
  fun hm => h (mem_strip_sub k ',' hm)

theorem split_append_no_comma : ∀ (a s : List Char), ',' ∉ a →
    pySplitComma (a ++ s) =
      (a ++ (pySplitComma s).headD []) :: (pySplitComma s).tail := by
  intro a
  induction a with
  | nil =>
    intro s _
    cases hr : pySplitComma s with
    | nil => exact absurd hr (split_ne_nil s)
    | cons h0 t0 => simp [hr]
  | cons c a' ih =>
    intro s ha
    have hc : ¬c = ',' := fun e => ha (by simp [e])
    have ha' : ',' ∉ a' := fun hm => ha (List.mem_cons_of_mem c hm)
    simp only [List.cons_append, pySplitComma, if_neg hc, List.append_eq]
    rw [ih s ha']
    simp

theorem join_cons_cons (p q : List Char) (rest : List (List Char)) :
    joinCommaSpace (p :: q :: rest) =
      p ++ ',' :: ' ' :: joinCommaSpace (q :: rest) := rfl

theorem split_join : ∀ (qs : List (List Char)) (q : List Char),
    (∀ p ∈ q :: qs, ',' ∉ p) →
    pySplitComma (joinCommaSpace (q :: qs)) =
      q :: qs.map (fun p => ' ' :: p) := by
  intro qs
  induction qs with
  | nil =>
    intro q hq
    have : joinCommaSpace [q] = q := rfl
    rw [this, show q = q ++ ([] : List Char) from (List.append_nil q).symm,
      split_append_no_comma q [] (by simpa using hq q (by simp))]
    simp [pySplitComma]
  | cons q' qs' ih =>
    intro q hq
    rw [join_cons_cons]
    rw [split_append_no_comma q _ (hq q (by simp))]
    have hq' : ∀ p ∈ q' :: qs', ',' ∉ p := fun p hp =>
      hq p (List.mem_cons_of_mem q hp)
    have hz : pySplitComma (',' :: ' ' :: joinCommaSpace (q' :: qs')) =
        [] :: (' ' :: q') :: qs'.map (fun p => ' ' :: p) := by
      simp only [pySplitComma, if_pos rfl,
        if_neg (by decide : ¬(' ' = ',')), ih q' hq']
      simp
    rw [hz]
    simp

theorem parts_mem_props (s p : List Char)
    (hp : p ∈ ((pySplitComma s).filter (fun k => occursIn avc1 k)).map pyStrip) :
    occursIn avc1 p = true ∧ pyStrip p = p ∧ ',' ∉ p := by
  obtain ⟨k, hk, rfl⟩ := List.mem_map.mp hp
  obtain ⟨hkL, hocc⟩ := List.mem_filter.mp hk
  exact ⟨occursIn_strip k hocc, strip_idem k,
    strip_no_comma k (split_no_comma s k hkL)⟩

theorem convert_some_eq (x : List Char) :
    convert_codecs_for_iframes (some x) =
      some (joinCommaSpace
        (((pySplitComma x).filter (fun k => occursIn avc1 k)).map pyStrip)) := rfl

/-- C8: the codec filter splits on commas, trims each entry, retains
exactly the entries containing `avc1` and joins with `', '` (equal to the
trim-first formulation `spec_codec_filter`); it maps an absent codec string
to an absent result, never an empty string; and it is idempotent: filtering
an already-filtered (video-only) codec string returns it unchanged
(`generator.py` lines 302-310). -/
theorem codec_filter_props :
    (∀ s : List Char,
      convert_codecs_for_iframes (some s) = some (spec_codec_filter s)) ∧
    convert_codecs_for_iframes none = none ∧
    (∀ s : List Char,
      convert_codecs_for_iframes (convert_codecs_for_iframes (some s)) =
        convert_codecs_for_iframes (some s)) := by
  refine ⟨?_, rfl, ?_⟩
  · intro s
    rw [convert_some_eq]
    unfold spec_codec_filter
    have hpoint : ∀ k ∈ pySplitComma s,
        (fun k => occursIn avc1 k) k =
          ((fun k => occursIn avc1 k) ∘ pyStrip) k := by
      intro k _
      show occursIn avc1 k = occursIn avc1 (pyStrip k)
      cases h : occursIn avc1 (pyStrip k) with
      | true =>
        obtain ⟨a, b, hab⟩ := (occursIn_iff _ _).mp h
        obtain ⟨a', b', hk⟩ := strip_decomp k
        apply (occursIn_iff _ _).mpr
        refine ⟨a' ++ a, b ++ b', ?_⟩
        rw [hk, hab]
        simp [List.append_assoc]
      | false =>
        cases h2 : occursIn avc1 k with
        | false => rfl
        | true =>
          exfalso
          have := occursIn_strip k h2
          rw [h] at this
          exact Bool.false_ne_true this
    rw [List.filter_map, List.filter_congr hpoint]
  · intro s
    rw [convert_some_eq]
    cases hp : ((pySplitComma s).filter (fun k => occursIn avc1 k)).map pyStrip with
    | nil => rfl
    | cons q qs =>
      have hmem : ∀ p ∈ q :: qs,
          occursIn avc1 p = true ∧ pyStrip p = p ∧ ',' ∉ p := by
        intro p hpmem
        exact parts_mem_props s p (hp ▸ hpmem)
      rw [convert_some_eq]
      have hsj : pySplitComma (joinCommaSpace (q :: qs)) =
          q :: qs.map (fun p => ' ' :: p) :=
        split_join qs q (fun p hpm => (hmem p hpm).2.2)
      rw [hsj]
      have hfilter :
          (q :: qs.map (fun p => ' ' :: p)).filter (fun k => occursIn avc1 k) =
            q :: qs.map (fun p => ' ' :: p) := by
        apply List.filter_eq_self.mpr
        intro a ha
        rcases List.mem_cons.mp ha with rfl | ha'
        · exact (hmem a (List.mem_cons_self _ _)).1
        · obtain ⟨p', hp', rfl⟩ := List.mem_map.mp ha'
          exact occursIn_cons_of avc1 ' ' p'
            (hmem p' (List.mem_cons_of_mem q hp')).1
      rw [hfilter]
      have hmap : (q :: qs.map (fun p => ' ' :: p)).map pyStrip = q :: qs := by
        simp only [List.map_cons, List.map_map]
        congr 1
        · exact (hmem q (List.mem_cons_self _ _)).2.1
        · rw [show (pyStrip ∘ fun p => ' ' :: p) = fun p => pyStrip (' ' :: p)
            from rfl]
          calc qs.map (fun p => pyStrip (' ' :: p))
              = qs.map id := by
                apply List.map_congr_left
                intro p hpm
                rw [strip_cons_space p]
                exact (hmem p (List.mem_cons_of_mem q hpm)).2.1
            _ = qs := List.map_id qs
      rw [hmap]
